import Mathlib

/-!
Verification of the MistQL function-call evaluation core
(src/rust/src/eval/function/mod.rs) and the scalar display /
numeric canonicalization (src/rust/src/eval/value/display.rs),
as a shallow embedding in Lean 4.
-/

namespace MistQL

/-- Shorthand for the owned-text type, so that constructor names such as
`Value.String` do not shadow the payload type inside an inductive. -/
abbrev Str := String

/-- Modelled from the spec: the closed rule-kind vocabulary of parse nodes
produced by the out-of-scope pest grammar (spec section 6).  Only the kinds
this core inspects (`ident`, `function`, `at`) have semantic weight here;
the rest witness that other kinds exist.  `at` is a Lean keyword, hence the
trailing underscore. -/
inductive Rule : Type where
  | ident : Rule
  | function : Rule
  | at_ : Rule
  | array : Rule
  | object : Rule
  | keyval : Rule
  | string : Rule
  | inner : Rule
  | number : Rule
  | bool : Rule
  | null : Rule
  | pipe : Rule
deriving DecidableEq

/-- Modelled from the spec: a parse node (pest `Pair`): a rule kind, the
literal source text, and the ordered list of child nodes (spec section 6).
The core only borrows these, so a plain inductive suffices. -/
inductive Node : Type where
  | mk : Rule → Str → List Node → Node

/-- The rule kind of a node (pest `as_rule`). -/
def Node.rule : Node → Rule
  | Node.mk r _ _ => r

/-- The literal source text of a node (pest `as_str`). -/
def Node.text : Node → Str
  | Node.mk _ t _ => t

/-- The ordered child list of a node (pest `into_inner`). -/
def Node.children : Node → List Node
  | Node.mk _ _ c => c

/-- Modelled from the spec: the observable decimal content of a 64-bit
float, namely its sign and the shortest round-tripping decimal significand
(most-significant digit first) with its scientific decimal exponent, i.e.
the value is `(-1)^neg * d₁.d₂…d_k * 10^exp`.  The bit-level float-to-digits
step lives in the out-of-scope `lexical` crate; this structure records its
output, which is what the formatting rules of spec section 4.4 consume. -/
structure Dec : Type where
  neg : Bool
  digits : List ℕ
  exp : ℤ
deriving DecidableEq

/-- The character for one decimal digit. -/
def digitChar (d : ℕ) : Char := Char.ofNat (48 + d)

/-- Modelled from the spec: plain (positional) decimal notation for a
significand `ds` with scientific exponent `e`, as written by the `lexical`
crate under the options set in `from_number`: no leading zeros on the
integer part, a bare `0` integer part for values below one, and integral
values drop the decimal point entirely (`trim_floats`). -/
def plainDigits (ds : List ℕ) (e : ℤ) : List Char :=
  if e < 0 then
    '0' :: '.' :: (List.replicate (-e - 1).toNat '0' ++ ds.map digitChar)
  else if (ds.length : ℤ) - 1 ≤ e then
    ds.map digitChar ++ List.replicate (e - ((ds.length : ℤ) - 1)).toNat '0'
  else
    (ds.take (e.toNat + 1)).map digitChar ++ '.' :: (ds.drop (e.toNat + 1)).map digitChar

/-- Modelled from the spec: scientific notation for a significand `ds` with
scientific exponent `e`, as written by the `lexical` crate under the options
set in `from_number`: one digit before the point, no trailing `.0` on a
one-digit significand (`trim_floats`), and a mandatory sign on the exponent
(`required_exponent_sign`). -/
def sciDigits (ds : List ℕ) (e : ℤ) : List Char :=
  (match ds with
    | [] => []
    | [d] => [digitChar d]
    | d :: rest => digitChar d :: '.' :: rest.map digitChar)
  ++ 'e' :: (if e < 0 then '-' else '+') :: Nat.toDigits 10 e.natAbs

/-- Modelled from the spec: the numeric canonicalizer `from_number`
(src/rust/src/eval/value/display.rs).  The source configures the `lexical`
writer with `positive_exponent_break(20)` and `negative_exponent_break(-6)`:
scientific notation is used exactly when the scientific decimal exponent
is below -6 or above 20, plain decimal notation otherwise; a negative
value carries a leading minus and positive values carry no sign
(`no_positive_mantissa_sign`). -/
def from_number (d : Dec) : Str :=
  String.mk ((if d.neg then ['-'] else []) ++
    (if d.exp < -6 ∨ 20 < d.exp then sciDigits d.digits d.exp else plainDigits d.digits d.exp))

/-- Modelled from the spec: the single query-error kind surfaced by this
core (spec section 7), plus a `crash` marker standing for the Rust panics
(`unreachable!` and `Option::unwrap` failures) which are not errors at all
in the source but unrecoverable aborts. -/
inductive Error : Type where
  | query : Str → Error
  | crash : Error
deriving DecidableEq

/-- Modelled from the spec: the runtime value variant (spec section 3):
Null, Boolean, Int, Float, String, Ident, Array, Object, and a
function-reference holding an unevaluated node.  A Float carries the
observable decimal content of the 64-bit value (see `Dec`). -/
inductive Value : Type where
  | Null : Value
  | Boolean : Bool → Value
  | Int : ℤ → Value
  | Float : Dec → Value
  | String : Str → Value
  | Ident : Str → Value
  | Array : List Value → Value
  | Object : List (Str × Value) → Value
  | FuncRef : Node → Value

/-- Strip the leading zeros of a least-significant-digit-first digit list;
these are the trailing zeros of the written numeral. -/
def dropZeros : List ℕ → List ℕ
  | [] => []
  | 0 :: t => dropZeros t
  | d :: t => d :: t

/-- Modelled from the spec: the `num as f64` widening applied to an Int
before display, composed with the float-to-digits step.  Below `2^53` in
magnitude the widening is exact (spec section 3), and the shortest
round-tripping decimal of an exactly-represented integer is its own digit
string with the trailing zeros folded into the exponent; this definition
is that exact decimal content, hence faithful precisely in the range the
spec documents as lossless. -/
def intToDec (n : ℤ) : Dec :=
  if n = 0 then ⟨false, [0], 0⟩
  else ⟨decide (n < 0), (dropZeros (Nat.digits 10 n.natAbs)).reverse,
    ((Nat.digits 10 n.natAbs).length : ℤ) - 1⟩

/-- The scalar Display rendering of a Value
(src/rust/src/eval/value/display.rs, `impl fmt::Display for Value`):
null/true/false literals, numbers through `from_number` (Int widened
first), raw text for String and Ident, and the source's catch-all
placeholder for everything else (Array, Object, function references). -/
def Value.display : Value → Str
  | Value.Null => "null"
  | Value.Boolean true => "true"
  | Value.Boolean false => "false"
  | Value.Float num => from_number num
  | Value.Int num => from_number (intToDec num)
  | Value.String s => s
  | Value.Ident s => s
  | _ => "unimplemented"

/-- The canonical decimal rendering of an integer, written from the spec's
words for comparison with the code's rendering: an optional leading minus
for negative values (no sign otherwise), then the decimal digits with no
leading zeros, no decimal point and no fractional part. -/
def canonicalDecimal (n : ℤ) : Str :=
  String.mk ((if n < 0 then ['-'] else []) ++
    (if n.natAbs = 0 then [0] else (Nat.digits 10 n.natAbs).reverse).map digitChar)

/-- The closed function-tag enumeration
(src/rust/src/eval/function/mod.rs, `enum Function`). -/
inductive Function : Type where
  | Count : Function
  | Float : Function
  | Index : Function
  | Keys : Function
  | Log : Function
  | Map : Function
  | String : Function
  | Sum : Function
  | Values : Function
deriving DecidableEq

/-- Function-name resolution
(src/rust/src/eval/function/mod.rs, `impl FromStr for Function`):
a literal, case-sensitive lookup in the closed table, failing with the
query error built by `Error::query(format!("unknown function {}", s))`. -/
def Function.fromStr (s : Str) : Except Error Function :=
  if s = "count" then Except.ok Function.Count
  else if s = "float" then Except.ok Function.Float
  else if s = "index" then Except.ok Function.Index
  else if s = "keys" then Except.ok Function.Keys
  else if s = "log" then Except.ok Function.Log
  else if s = "map" then Except.ok Function.Map
  else if s = "string" then Except.ok Function.String
  else if s = "sum" then Except.ok Function.Sum
  else if s = "values" then Except.ok Function.Values
  else Except.error (Error.query ("unknown function " ++ s))

/-- Whether a tag reserves its first child as an unevaluated lambda
(src/rust/src/eval/function/mod.rs, `Function::takes_fn_arg`):
true exactly for Map. -/
def Function.takes_fn_arg : Function → Bool
  | Function.Map => true
  | _ => false

/-- Modelled from the spec: the signature of the out-of-scope general
expression evaluator `expr::eval(node, data, context)` (spec section 6);
the function-call core is verified for an arbitrary such evaluator. -/
abbrev Ev : Type := Node → Value → Option Value → Except Error Value

/-- Modelled from the spec: the bodies of the builtin functions live in
out-of-scope modules (`count`, `float`, …); the dispatch skeleton is
verified for an arbitrary such family. -/
structure Builtins : Type where
  count : List Value → Except Error Value
  float : List Value → Except Error Value
  index : List Value → Except Error Value
  keys : List Value → Except Error Value
  log : List Value → Except Error Value
  map : Node → List Value → Except Error Value
  string : List Value → Except Error Value
  sum : List Value → Except Error Value
  values : List Value → Except Error Value

/-- One step of the argument scan
(src/rust/src/eval/function/mod.rs, lines 73-81): an `at` child is
evaluated with the ambient context supplied, any other child with no
context. -/
def evalChild (ev : Ev) (data : Value) (context : Option Value) (arg : Node) :
    Except Error Value :=
  if arg.rule = Rule.at_ then ev arg data context else ev arg data none

/-- The left-to-right scan over the non-lambda children
(src/rust/src/eval/function/mod.rs, lines 64-81): evaluates each child via
`evalChild`, short-circuiting on the first error, and returns the evaluated
arguments together with the `use_implicit_context` flag, which starts true
and is cleared by every `at` child. -/
def scanArgs (ev : Ev) (data : Value) (context : Option Value) :
    List Node → Except Error (List Value × Bool)
  | [] => Except.ok ([], true)
  | arg :: rest =>
    match evalChild ev data context arg with
    | Except.error e => Except.error e
    | Except.ok v =>
      match scanArgs ev data context rest with
      | Except.error e => Except.error e
      | Except.ok (vs, flag) =>
        if arg.rule = Rule.at_ then Except.ok (v :: vs, false)
        else Except.ok (v :: vs, flag)

/-- The implicit-context append
(src/rust/src/eval/function/mod.rs, lines 83-88): when the flag is still
set and an ambient context is present, it is pushed as one additional
trailing argument. -/
def appendImplicit (context : Option Value) (args : List Value)
    (useImplicitContext : Bool) : List Value :=
  if useImplicitContext then
    match context with
    | some ctx => args ++ [ctx]
    | none => args
  else args

/-- Resolution of the function tag and the start of the child iterator
(src/rust/src/eval/function/mod.rs, lines 57-62): an `ident` node parses
its own text (its iterator is untouched), a `function` node parses the text
of its first child (consumed by `next().unwrap()`, which panics on an
empty iterator), and any other rule hits `unreachable!()`. -/
def evalResolve (pair : Node) : Except Error (Function × List Node) :=
  match pair.rule with
  | Rule.ident => (Function.fromStr pair.text).map (fun f => (f, pair.children))
  | Rule.function =>
    match pair.children with
    | [] => Except.error Error.crash
    | nameNode :: rest => (Function.fromStr nameNode.text).map (fun f => (f, rest))
  | _ => Except.error Error.crash

/-- Extraction of the reserved lambda node
(src/rust/src/eval/function/mod.rs, lines 65-68): a higher-order tag takes
the next child unevaluated (`next().unwrap()`, panicking when none is
left); every other tag reserves nothing. -/
def evalFnArg (f : Function) (it : List Node) : Except Error (Option Node × List Node) :=
  if f.takes_fn_arg then
    match it with
    | [] => Except.error Error.crash
    | a :: rest => Except.ok (some a, rest)
  else Except.ok (none, it)

/-- The dispatch table
(src/rust/src/eval/function/mod.rs, lines 90-100): the resolved tag picks
the builtin; Map receives the reserved lambda node via `fn_arg.unwrap()`,
which panics when no lambda was reserved. -/
def dispatch (B : Builtins) (f : Function) (fnArg : Option Node) (args : List Value) :
    Except Error Value :=
  match f with
  | Function.Count => B.count args
  | Function.Float => B.float args
  | Function.Index => B.index args
  | Function.Keys => B.keys args
  | Function.Log => B.log args
  | Function.Map =>
    match fnArg with
    | some fa => B.map fa args
    | none => Except.error Error.crash
  | Function.String => B.string args
  | Function.Sum => B.sum args
  | Function.Values => B.values args

/-- The function-call evaluation core
(src/rust/src/eval/function/mod.rs, `eval`): resolve the tag, reserve the
lambda for higher-order tags, scan the remaining children left to right,
append the implicit trailing context when it was not explicitly consumed,
and dispatch. -/
def eval (B : Builtins) (ev : Ev) (pair : Node) (data : Value)
    (context : Option Value) : Except Error Value :=
  match evalResolve pair with
  | Except.error e => Except.error e
  | Except.ok (f, it1) =>
    match evalFnArg f it1 with
    | Except.error e => Except.error e
    | Except.ok (fnArg, it2) =>
      match scanArgs ev data context it2 with
      | Except.error e => Except.error e
      | Except.ok (args, flag) => dispatch B f fnArg (appendImplicit context args flag)

/-- The closed list of resolvable function names (spec section 8). -/
def nineNames : List Str :=
  ["count", "float", "index", "keys", "log", "map", "string", "sum", "values"]

/-- A concrete external evaluator for witnesses: always returns Null. -/
def evC : Ev := fun _ _ _ => Except.ok Value.Null

/-- A concrete external evaluator for witnesses: always fails. -/
def evErr : Ev := fun _ _ _ => Except.error (Error.query ("boom"))

/-- A concrete builtin family for witnesses: every builtin wraps its
arguments in an Array. -/
def BC : Builtins where
  count := fun a => Except.ok (Value.Array a)
  float := fun a => Except.ok (Value.Array a)
  index := fun a => Except.ok (Value.Array a)
  keys := fun a => Except.ok (Value.Array a)
  log := fun a => Except.ok (Value.Array a)
  map := fun _ a => Except.ok (Value.Array a)
  string := fun a => Except.ok (Value.Array a)
  sum := fun a => Except.ok (Value.Array a)
  values := fun a => Except.ok (Value.Array a)

/-- A valid decimal representation: a nonempty significand of decimal
digits. -/
def GoodDec (d : Dec) : Prop :=
  d.digits ≠ [] ∧ ∀ x ∈ d.digits, x < 10

/-- Whether the rendering of a float uses scientific notation, observed on
the output text: an exponent marker character appears. -/
abbrev sciOutput (d : Dec) : Prop :=
  'e' ∈ (from_number d).data

/-- C6's notation-selection rule exactly as the claim states it: plain
decimal is used when the decimal exponent lies in the half-open window
[-6, 20), scientific notation otherwise. -/
def ClaimC6Window : Prop :=
  ∀ d : Dec, GoodDec d → (sciOutput d ↔ ¬(-6 ≤ d.exp ∧ d.exp < 20))

/-- An external evaluator that never reports the panic marker. -/
def EvNoCrash (ev : Ev) : Prop :=
  ∀ n d c, ev n d c ≠ Except.error Error.crash

/-- A builtin family none of whose members reports the panic marker. -/
def Builtins.NoCrash (B : Builtins) : Prop :=
  (∀ a, B.count a ≠ Except.error Error.crash) ∧
  (∀ a, B.float a ≠ Except.error Error.crash) ∧
  (∀ a, B.index a ≠ Except.error Error.crash) ∧
  (∀ a, B.keys a ≠ Except.error Error.crash) ∧
  (∀ a, B.log a ≠ Except.error Error.crash) ∧
  (∀ n a, B.map n a ≠ Except.error Error.crash) ∧
  (∀ a, B.string a ≠ Except.error Error.crash) ∧
  (∀ a, B.sum a ≠ Except.error Error.crash) ∧
  (∀ a, B.values a ≠ Except.error Error.crash)

/-- The well-formedness precondition exactly as the claim states it: the
rule kind is `ident` or `function`, and a `function` node has the
function-name identifier as its first child and, when the resolved tag is
higher-order, at least one further child for the lambda. -/
def ClaimWellFormed (pair : Node) : Prop :=
  (pair.rule = Rule.ident ∨ pair.rule = Rule.function) ∧
  (pair.rule = Rule.function →
    ∃ nameNode rest, pair.children = nameNode :: rest ∧
      ∀ f, Function.fromStr nameNode.text = Except.ok f →
        f.takes_fn_arg = true → rest ≠ [])

/-- The amended well-formedness: additionally, a bare `ident` node that
resolves to a higher-order tag must carry a child for the lambda (a bare
`map` identifier hits the lambda-extraction unwrap otherwise). -/
def WellFormedCall (pair : Node) : Prop :=
  ClaimWellFormed pair ∧
  (pair.rule = Rule.ident →
    ∀ f, Function.fromStr pair.text = Except.ok f →
      f.takes_fn_arg = true → pair.children ≠ [])

/-- When the scan succeeds and some scanned child is the `at` marker, the
`use_implicit_context` flag comes back cleared. -/
lemma scanArgs_flag_eq_false (ev : Ev) (data : Value) (context : Option Value) :
    ∀ children args flag, (∃ c ∈ children, c.rule = Rule.at_) →
      scanArgs ev data context children = Except.ok (args, flag) → flag = false := by
  intro children
  induction children with
  | nil =>
    intro args flag hat _
    rcases hat with ⟨c, hc, _⟩
    exact absurd hc (List.not_mem_nil c)
  | cons a t ih =>
    intro args flag hat hscan
    rw [scanArgs] at hscan
    rcases h1 : evalChild ev data context a with e | v <;> rw [h1] at hscan
    · exact Except.noConfusion hscan
    rcases h2 : scanArgs ev data context t with e | ⟨vs, fl⟩ <;> rw [h2] at hscan
    · exact Except.noConfusion hscan
    by_cases ha : a.rule = Rule.at_
    · simp only [ha, if_pos, Except.ok.injEq, Prod.mk.injEq] at hscan
      exact hscan.2.symm
    · simp only [ha, if_neg, if_false, Except.ok.injEq, Prod.mk.injEq] at hscan
      rcases hat with ⟨c, hc, hcat⟩
      rcases List.mem_cons.mp hc with rfl | hct
      · exact absurd hcat ha
      · exact hscan.2 ▸ ih vs fl ⟨c, hct, hcat⟩ h2


/-- When the scan succeeds and no scanned child is the `at` marker, the
`use_implicit_context` flag comes back still set. -/
lemma scanArgs_flag_eq_true (ev : Ev) (data : Value) (context : Option Value) :
    ∀ children args flag, (∀ c ∈ children, c.rule ≠ Rule.at_) →
      scanArgs ev data context children = Except.ok (args, flag) → flag = true := by
  intro children
  induction children with
  | nil =>
    intro args flag _ hscan
    rw [scanArgs] at hscan
    simp only [Except.ok.injEq, Prod.mk.injEq] at hscan
    exact hscan.2.symm
  | cons a t ih =>
    intro args flag hno hscan
    rw [scanArgs] at hscan
    rcases h1 : evalChild ev data context a with e | v <;> rw [h1] at hscan
    · exact Except.noConfusion hscan
    rcases h2 : scanArgs ev data context t with e | ⟨vs, fl⟩ <;> rw [h2] at hscan
    · exact Except.noConfusion hscan
    simp only [hno a (List.mem_cons_self a t), if_neg, if_false, Except.ok.injEq,
      Prod.mk.injEq] at hscan
    exact hscan.2 ▸ ih vs fl (fun c hc => hno c (List.mem_cons_of_mem a hc)) h2

/-- A scan over children none of which is the `at` marker does not depend
on the ambient context value. -/
lemma scanArgs_congr_context (ev : Ev) (data : Value) (c1 c2 : Option Value) :
    ∀ children, (∀ c ∈ children, c.rule ≠ Rule.at_) →
      scanArgs ev data c1 children = scanArgs ev data c2 children := by
  intro children
  induction children with
  | nil => intro _; rfl
  | cons a t ih =>
    intro hno
    have ha := hno a (List.mem_cons_self a t)
    have he : evalChild ev data c1 a = evalChild ev data c2 a := by
      unfold evalChild
      rw [if_neg ha, if_neg ha]
    rw [scanArgs, scanArgs, he, ih (fun c hc => hno c (List.mem_cons_of_mem a hc))]

/-- C1: in any call whose scanned (non-lambda) children contain an explicit
ambient-context marker (`at`) node, the child-scan flag comes back cleared
and the implicit trailing context argument is not appended, even when an
ambient pipe-context value is present. -/
theorem at_marker_suppresses_implicit_context (ev : Ev) (data : Value)
    (context : Option Value) (children : List Node) (args : List Value) (flag : Bool)
    (hat : ∃ c ∈ children, c.rule = Rule.at_)
    (hscan : scanArgs ev data context children = Except.ok (args, flag)) :
    flag = false ∧ appendImplicit context args flag = args := by
  have hf : flag = false := scanArgs_flag_eq_false ev data context children args flag hat hscan
  subst hf
  exact ⟨rfl, rfl⟩

/-- Witness for C1 at a concrete input: a single `at` child, with an
ambient context present. -/
theorem at_marker_suppresses_implicit_context_witness :
    false = false ∧
      appendImplicit (some (Value.Int 7)) [Value.Null] false = [Value.Null] :=
  at_marker_suppresses_implicit_context evC Value.Null (some (Value.Int 7))
    [Node.mk Rule.at_ ("@") []] [Value.Null] false
    ⟨Node.mk Rule.at_ ("@") [], by simp, rfl⟩ rfl

/-- C2: in any call whose scanned children contain no explicit marker,
when an ambient pipe-context value is present the flag comes back set and
exactly one copy of the context is appended as one additional trailing
positional argument, after all explicit arguments. -/
theorem no_marker_appends_context_last (ev : Ev) (data : Value) (ctx : Value)
    (children : List Node) (args : List Value) (flag : Bool)
    (hno : ∀ c ∈ children, c.rule ≠ Rule.at_)
    (hscan : scanArgs ev data (some ctx) children = Except.ok (args, flag)) :
    flag = true ∧ appendImplicit (some ctx) args flag = args ++ [ctx] := by
  have hf : flag = true := scanArgs_flag_eq_true ev data (some ctx) children args flag hno hscan
  subst hf
  exact ⟨rfl, rfl⟩

/-- Witness for C2 at a concrete input: two non-marker children. -/
theorem no_marker_appends_context_last_witness :
    true = true ∧
      appendImplicit (some (Value.Int 7)) [Value.Null, Value.Null] true =
        [Value.Null, Value.Null, Value.Int 7] :=
  no_marker_appends_context_last evC Value.Null (Value.Int 7)
    [Node.mk Rule.number ("1") [], Node.mk Rule.number ("2") []]
    [Value.Null, Value.Null] true (by decide) rfl

/-- C3: a non-marker child is evaluated with no ambient context supplied,
so its evaluated value is identical across any two evaluations of the
enclosing call that differ only in the ambient context; consequently a
scan containing no marker is context-independent as a whole. -/
theorem non_marker_children_context_independent (ev : Ev) (data : Value)
    (c1 c2 : Option Value) (children : List Node)
    (hno : ∀ c ∈ children, c.rule ≠ Rule.at_) :
    (∀ c ∈ children, evalChild ev data c1 c = evalChild ev data c2 c) ∧
      scanArgs ev data c1 children = scanArgs ev data c2 children := by
  constructor
  · intro c hc
    unfold evalChild
    rw [if_neg (hno c hc), if_neg (hno c hc)]
  · exact scanArgs_congr_context ev data c1 c2 children hno

/-- Witness for C3 at a concrete input: one number child, contexts
`some 7` versus `none`. -/
theorem non_marker_children_context_independent_witness :
    (∀ c ∈ [Node.mk Rule.number ("1") []],
      evalChild evC Value.Null (some (Value.Int 7)) c = evalChild evC Value.Null none c) ∧
      scanArgs evC Value.Null (some (Value.Int 7)) [Node.mk Rule.number ("1") []] =
        scanArgs evC Value.Null none [Node.mk Rule.number ("1") []] :=
  non_marker_children_context_independent evC Value.Null (some (Value.Int 7)) none
    [Node.mk Rule.number ("1") []] (by decide)

/-- C4: resolution succeeds exactly on the nine builtin names, by literal
case-sensitive lookup, and fails on every other identifier with the query
error naming it. -/
theorem fromStr_resolves_exactly_nine (s : Str) :
    (s ∈ nineNames ↔ ∃ f, Function.fromStr s = Except.ok f) ∧
    (s ∉ nineNames →
      Function.fromStr s = Except.error (Error.query ("unknown function " ++ s))) := by
  unfold Function.fromStr nineNames
  split_ifs with h1 h2 h3 h4 h5 h6 h7 h8 h9 <;> subst_vars
  · exact ⟨⟨fun _ => ⟨_, rfl⟩, fun _ => by decide⟩, fun hn => absurd (by decide) hn⟩
  · exact ⟨⟨fun _ => ⟨_, rfl⟩, fun _ => by decide⟩, fun hn => absurd (by decide) hn⟩
  · exact ⟨⟨fun _ => ⟨_, rfl⟩, fun _ => by decide⟩, fun hn => absurd (by decide) hn⟩
  · exact ⟨⟨fun _ => ⟨_, rfl⟩, fun _ => by decide⟩, fun hn => absurd (by decide) hn⟩
  · exact ⟨⟨fun _ => ⟨_, rfl⟩, fun _ => by decide⟩, fun hn => absurd (by decide) hn⟩
  · exact ⟨⟨fun _ => ⟨_, rfl⟩, fun _ => by decide⟩, fun hn => absurd (by decide) hn⟩
  · exact ⟨⟨fun _ => ⟨_, rfl⟩, fun _ => by decide⟩, fun hn => absurd (by decide) hn⟩
  · exact ⟨⟨fun _ => ⟨_, rfl⟩, fun _ => by decide⟩, fun hn => absurd (by decide) hn⟩
  · exact ⟨⟨fun _ => ⟨_, rfl⟩, fun _ => by decide⟩, fun hn => absurd (by decide) hn⟩
  · constructor
    · constructor
      · intro hmem
        simp only [List.mem_cons, List.not_mem_nil, or_false] at hmem
        rcases hmem with h | h | h | h | h | h | h | h | h <;> contradiction
      · rintro ⟨f, hf⟩
        exact hf.elim
    · intro _
      rfl

/-- Witness for C4 at concrete inputs: one name inside the table, one
outside. -/
theorem fromStr_resolves_exactly_nine_witness :
    Function.fromStr ("wibble") =
        Except.error (Error.query ("unknown function " ++ "wibble")) ∧
      ("count" ∈ nineNames ↔ ∃ f, Function.fromStr ("count") = Except.ok f) :=
  ⟨(fromStr_resolves_exactly_nine ("wibble")).2 (by decide),
    (fromStr_resolves_exactly_nine ("count")).1⟩

/-- C5: a call resolving to the higher-order Map tag reserves its first
child after the name as the lambda payload: that child is excluded from the
argument scan, never evaluated through the external evaluator at
argument-collection time, and is passed as a separate unevaluated node to
the Map builtin alongside the evaluated argument list.  The statement holds
for an arbitrary external evaluator, so the reserved node's evaluation
cannot influence the result at this stage. -/
theorem map_reserves_lambda_unevaluated (B : Builtins) (ev : Ev) (data : Value)
    (context : Option Value) (t : Str) (nameNode fa : Node) (rest : List Node)
    (hname : nameNode.text = "map") :
    eval B ev (Node.mk Rule.function t (nameNode :: fa :: rest)) data context =
      match scanArgs ev data context rest with
      | Except.error e => Except.error e
      | Except.ok (args, flag) => B.map fa (appendImplicit context args flag) := by
  have hres : evalResolve (Node.mk Rule.function t (nameNode :: fa :: rest)) =
      Except.ok (Function.Map, fa :: rest) := by
    simp only [evalResolve, Node.rule, Node.children, hname]
    rfl
  rcases hs : scanArgs ev data context rest with e | ⟨args, flag⟩ <;>
    simp only [eval, hres, evalFnArg, Function.takes_fn_arg, if_true, hs, dispatch]

/-- Witness for C5 at a concrete input: `map` with an `at` lambda and one
number argument. -/
theorem map_reserves_lambda_unevaluated_witness :
    eval BC evC
        (Node.mk Rule.function ("map @ 1")
          (Node.mk Rule.ident ("map") [] :: Node.mk Rule.at_ ("@") [] ::
            [Node.mk Rule.number ("1") []]))
        Value.Null (some (Value.Int 7)) =
      match scanArgs evC Value.Null (some (Value.Int 7)) [Node.mk Rule.number ("1") []] with
      | Except.error e => Except.error e
      | Except.ok (args, flag) =>
        BC.map (Node.mk Rule.at_ ("@") [])
          (appendImplicit (some (Value.Int 7)) args flag) :=
  map_reserves_lambda_unevaluated BC evC Value.Null (some (Value.Int 7)) ("map @ 1")
    (Node.mk Rule.ident ("map") []) (Node.mk Rule.at_ ("@") [])
    [Node.mk Rule.number ("1") []] rfl

/-- A scan whose children are some successfully evaluating prefix, then a
failing child, fails with exactly that child's error, whatever comes
after. -/
lemma scanArgs_append_error (ev : Ev) (data : Value) (context : Option Value) :
    ∀ pre (bad : Node) post e,
      (∀ c ∈ pre, ∃ v, evalChild ev data context c = Except.ok v) →
      evalChild ev data context bad = Except.error e →
      scanArgs ev data context (pre ++ bad :: post) = Except.error e := by
  intro pre
  induction pre with
  | nil =>
    intro bad post e _ hbad
    rw [List.nil_append, scanArgs, hbad]
  | cons a t ih =>
    intro bad post e hpre hbad
    obtain ⟨v, hv⟩ := hpre a (List.mem_cons_self a t)
    rw [List.cons_append, scanArgs, hv,
      ih bad post e (fun c hc => hpre c (List.mem_cons_of_mem a hc)) hbad]

/-- C9: children are evaluated strictly left to right and errors
short-circuit: once one child of a call fails, the scan result is exactly
that error whatever the later siblings are, no partial result is produced,
and the whole call evaluates to the same error unchanged. -/
theorem errors_short_circuit (B : Builtins) (ev : Ev) (data : Value)
    (context : Option Value) (pre post : List Node) (bad : Node) (e : Error)
    (t : Str) (nameNode : Node) (f : Function)
    (hpre : ∀ c ∈ pre, ∃ v, evalChild ev data context c = Except.ok v)
    (hbad : evalChild ev data context bad = Except.error e)
    (hname : Function.fromStr nameNode.text = Except.ok f)
    (hfa : f.takes_fn_arg = false) :
    scanArgs ev data context (pre ++ bad :: post) = Except.error e ∧
    eval B ev (Node.mk Rule.function t (nameNode :: (pre ++ bad :: post))) data context =
      Except.error e := by
  have hscan := scanArgs_append_error ev data context pre bad post e hpre hbad
  refine ⟨hscan, ?_⟩
  have hres : evalResolve (Node.mk Rule.function t (nameNode :: (pre ++ bad :: post))) =
      Except.ok (f, pre ++ bad :: post) := by
    simp only [evalResolve, Node.rule, Node.children, hname]
    rfl
  have hfn : evalFnArg f (pre ++ bad :: post) =
      Except.ok (none, pre ++ bad :: post) := by
    unfold evalFnArg
    rw [hfa]
    rfl
  simp only [eval, hres, hfn, hscan]

/-- Witness for C9 at a concrete input: a `count` call whose single child
fails under an always-failing external evaluator. -/
theorem errors_short_circuit_witness :
    scanArgs evErr Value.Null none ([] ++ Node.mk Rule.number ("1") [] :: []) =
        Except.error (Error.query ("boom")) ∧
      eval BC evErr
          (Node.mk Rule.function ("count 1")
            (Node.mk Rule.ident ("count") [] :: ([] ++ Node.mk Rule.number ("1") [] :: [])))
          Value.Null none =
        Except.error (Error.query ("boom")) :=
  errors_short_circuit BC evErr Value.Null none [] [] (Node.mk Rule.number ("1") [])
    (Error.query ("boom")) ("count 1") (Node.mk Rule.ident ("count") []) Function.Count
    (fun c hc => absurd hc (List.not_mem_nil c)) rfl rfl rfl

/-- Any resolution failure is a query error naming the identifier. -/
lemma fromStr_error_query (s : Str) (e : Error)
    (h : Function.fromStr s = Except.error e) : ∃ m, e = Error.query m := by
  unfold Function.fromStr at h
  split_ifs at h
  all_goals first
  | exact Except.noConfusion h
  | exact h.elim
  | exact ⟨_, (Except.error.inj h).symm⟩

/-- The scan never reports the panic marker when the external evaluator
does not. -/
lemma scanArgs_no_crash (ev : Ev) (data : Value) (context : Option Value)
    (hev : EvNoCrash ev) :
    ∀ children, scanArgs ev data context children ≠ Except.error Error.crash := by
  intro children
  induction children with
  | nil =>
    intro h
    exact Except.noConfusion h
  | cons a t ih =>
    intro h
    rw [scanArgs] at h
    rcases h1 : evalChild ev data context a with e | v <;> rw [h1] at h
    · have he : e = Error.crash := Except.error.inj h
      subst he
      unfold evalChild at h1
      by_cases ha : a.rule = Rule.at_
      · rw [if_pos ha] at h1
        exact hev a data context h1
      · rw [if_neg ha] at h1
        exact hev a data none h1
    · rcases h2 : scanArgs ev data context t with e | ⟨vs, fl⟩ <;> rw [h2] at h
      · have he : e = Error.crash := Except.error.inj h
        exact ih (he ▸ h2)
      · by_cases ha : a.rule = Rule.at_ <;> simp [ha] at h

/-- Dispatch never reports the panic marker when the builtins do not and a
lambda was reserved whenever the tag is higher-order. -/
lemma dispatch_no_crash (B : Builtins) (hB : B.NoCrash) (f : Function)
    (fnArg : Option Node) (args : List Value)
    (hMap : f.takes_fn_arg = true → fnArg ≠ none) :
    dispatch B f fnArg args ≠ Except.error Error.crash := by
  obtain ⟨hc, hf, hi, hk, hl, hm, hs, hsm, hv⟩ := hB
  cases f <;> simp only [dispatch]
  · exact hc args
  · exact hf args
  · exact hi args
  · exact hk args
  · exact hl args
  · rcases hfa : fnArg with _ | fa
    · exact absurd hfa (hMap rfl)
    · exact hm fa args
  · exact hs args
  · exact hsm args
  · exact hv args

/-- Under the amended well-formedness, resolution and iterator start-up
either fail with a query error or produce a tag whose higher-order lambda
is available. -/
lemma evalResolve_wf (pair : Node) (hwf : WellFormedCall pair) :
    (∃ m, evalResolve pair = Except.error (Error.query m)) ∨
    ∃ f it, evalResolve pair = Except.ok (f, it) ∧
      (f.takes_fn_arg = true → it ≠ []) := by
  obtain ⟨⟨hr, hfn⟩, hid⟩ := hwf
  obtain ⟨r, tx, ch⟩ := pair
  rcases hr with hri | hrf
  · have hr' : r = Rule.ident := hri
    subst hr'
    rcases hfs : Function.fromStr tx with e | f
    · obtain ⟨m, hm⟩ := fromStr_error_query tx e hfs
      subst hm
      left
      exact ⟨m, by simp only [evalResolve, Node.rule, Node.text, Node.children, hfs,
        Except.map]⟩
    · right
      refine ⟨f, ch, ?_, ?_⟩
      · simp only [evalResolve, Node.rule, Node.text, Node.children, hfs, Except.map]
      · intro htf
        exact hid rfl f hfs htf
  · have hr' : r = Rule.function := hrf
    subst hr'
    obtain ⟨nameNode, rest, hch, hho⟩ := hfn rfl
    have hch' : ch = nameNode :: rest := hch
    subst hch'
    rcases hfs : Function.fromStr nameNode.text with e | f
    · obtain ⟨m, hm⟩ := fromStr_error_query nameNode.text e hfs
      subst hm
      left
      exact ⟨m, by simp only [evalResolve, Node.rule, Node.children, hfs, Except.map]⟩
    · right
      refine ⟨f, rest, ?_, fun htf => hho f hfs htf⟩
      simp only [evalResolve, Node.rule, Node.children, hfs, Except.map]

/-- Counterexample to C10 as stated: a bare `ident` node whose text is
`map` and which has no children satisfies the claim's well-formedness
precondition (with a never-crashing evaluator and builtin family), yet its
evaluation hits the lambda-extraction unwrap and aborts with the panic
marker instead of a Value or a query error. -/
theorem eval_bare_map_ident_crashes :
    EvNoCrash evC ∧ BC.NoCrash ∧ ClaimWellFormed (Node.mk Rule.ident ("map") []) ∧
    eval BC evC (Node.mk Rule.ident ("map") []) Value.Null none =
      Except.error Error.crash := by
  refine ⟨?_, ?_, ?_, rfl⟩
  · intro _ _ _ h
    exact Except.noConfusion h
  · exact ⟨fun _ h => Except.noConfusion h, fun _ h => Except.noConfusion h,
      fun _ h => Except.noConfusion h, fun _ h => Except.noConfusion h,
      fun _ h => Except.noConfusion h, fun _ _ h => Except.noConfusion h,
      fun _ h => Except.noConfusion h, fun _ h => Except.noConfusion h,
      fun _ h => Except.noConfusion h⟩
  · exact ⟨Or.inl rfl, fun hcontra => Rule.noConfusion hcontra⟩

/-- C10 as amended: under the well-formedness strengthened to also require
a lambda child for a bare higher-order identifier, evaluation never
reports the panic marker (the unreachable branch and the child-extraction
unwraps are never hit): it returns a Value or a query error. -/
theorem eval_wellformed_never_crashes (B : Builtins) (ev : Ev) (pair : Node)
    (data : Value) (context : Option Value) (hev : EvNoCrash ev)
    (hB : B.NoCrash) (hwf : WellFormedCall pair) :
    eval B ev pair data context ≠ Except.error Error.crash := by
  intro h
  unfold eval at h
  rcases evalResolve_wf pair hwf with ⟨m, hres⟩ | ⟨f, it, hres, hit⟩ <;>
    simp only [hres] at h
  · exact Error.noConfusion (Except.error.inj h)
  · rcases hfn2 : evalFnArg f it with e | ⟨fnArg, it2⟩ <;> simp only [hfn2] at h
    · unfold evalFnArg at hfn2
      by_cases htf : f.takes_fn_arg = true
      · rcases it with _ | ⟨a, rest⟩
        · exact hit htf rfl
        · rw [if_pos htf] at hfn2
          exact Except.noConfusion hfn2
      · rw [if_neg htf] at hfn2
        exact Except.noConfusion hfn2
    · rcases hscan : scanArgs ev data context it2 with e | ⟨args, flag⟩ <;>
        simp only [hscan] at h
      · have he : e = Error.crash := Except.error.inj h
        exact scanArgs_no_crash ev data context hev it2 (he ▸ hscan)
      · refine dispatch_no_crash B hB f fnArg (appendImplicit context args flag) ?_ h
        intro htf
        unfold evalFnArg at hfn2
        rw [if_pos htf] at hfn2
        rcases it with _ | ⟨a, rest⟩
        · exact Except.noConfusion hfn2
        · have hinj := Except.ok.inj hfn2
          intro hnone
          rw [hnone] at hinj
          exact Option.noConfusion (congrArg Prod.fst hinj)

/-- Witness for the amended C10 at a concrete input: a bare `map`
identifier that does carry a lambda child. -/
theorem eval_wellformed_never_crashes_witness :
    eval BC evC (Node.mk Rule.ident ("map") [Node.mk Rule.number ("1") []])
        Value.Null none ≠ Except.error Error.crash :=
  eval_wellformed_never_crashes BC evC
    (Node.mk Rule.ident ("map") [Node.mk Rule.number ("1") []]) Value.Null none
    (fun _ _ _ h => Except.noConfusion h)
    ⟨fun _ h => Except.noConfusion h, fun _ h => Except.noConfusion h,
      fun _ h => Except.noConfusion h, fun _ h => Except.noConfusion h,
      fun _ h => Except.noConfusion h, fun _ _ h => Except.noConfusion h,
      fun _ h => Except.noConfusion h, fun _ h => Except.noConfusion h,
      fun _ h => Except.noConfusion h⟩
    ⟨⟨Or.inl rfl, fun hcontra => Rule.noConfusion hcontra⟩,
      fun _ _ _ _ => List.cons_ne_nil _ _⟩

/-- A decimal digit character is never the exponent marker. -/
lemma digitChar_ne_e (x : ℕ) (hx : x < 10) : digitChar x ≠ 'e' := by
  interval_cases x <;> decide

/-- Scientific notation always carries the exponent marker. -/
lemma e_mem_sciDigits (ds : List ℕ) (e : ℤ) : 'e' ∈ sciDigits ds e := by
  simp [sciDigits]

/-- Plain notation never contains the exponent marker. -/
lemma e_not_mem_plainDigits (ds : List ℕ) (e : ℤ) (hds : ∀ x ∈ ds, x < 10) :
    'e' ∉ plainDigits ds e := by
  unfold plainDigits
  split_ifs with h1 h2 <;> intro hmem
  · simp only [List.mem_cons, List.mem_append, List.mem_replicate, List.mem_map] at hmem
    rcases hmem with h | h | ⟨-, h⟩ | ⟨x, hx, h⟩
    · exact absurd h (by decide)
    · exact absurd h (by decide)
    · exact absurd h (by decide)
    · exact digitChar_ne_e x (hds x hx) h
  · simp only [List.mem_append, List.mem_map, List.mem_replicate] at hmem
    rcases hmem with ⟨x, hx, h⟩ | ⟨-, h⟩
    · exact digitChar_ne_e x (hds x hx) h
    · exact absurd h (by decide)
  · simp only [List.mem_append, List.mem_map, List.mem_cons] at hmem
    rcases hmem with ⟨x, hx, h⟩ | h | ⟨x, hx, h⟩
    · exact digitChar_ne_e x (hds x (List.take_subset _ _ hx)) h
    · exact absurd h (by decide)
    · exact digitChar_ne_e x (hds x (List.drop_subset _ _ hx)) h

/-- Counterexample to C6 as stated: the value 3e20 has decimal exponent
20, which lies outside the claim's half-open window [-6, 20), yet the
canonicalizer renders it in plain decimal notation (this is the code's own
golden fixture), so the notation-selection rule as claimed is false. -/
theorem from_number_halfopen_window_cex : ¬ ClaimC6Window := by
  intro hcl
  have h := (hcl ⟨false, [3], 20⟩ ⟨by decide, by decide⟩).2 (by decide)
  exact absurd h (by decide)

/-- C6 as amended: plain decimal notation is used exactly while the
decimal exponent lies in the closed window [-6, 20]; outside it,
scientific notation with an explicit exponent sign is used; and the eight
golden fixtures hold. -/
theorem from_number_window_and_fixtures :
    (∀ d : Dec, GoodDec d → (sciOutput d ↔ (d.exp < -6 ∨ 20 < d.exp))) ∧
    from_number ⟨false, [1, 5], 0⟩ = "1.5" ∧
    from_number ⟨false, [1], 0⟩ = "1" ∧
    from_number ⟨false, [1], 50⟩ = "1e+50" ∧
    from_number ⟨false, [1], -50⟩ = "1e-50" ∧
    from_number ⟨false, [1], -6⟩ = "0.000001" ∧
    from_number ⟨false, [1], -7⟩ = "1e-7" ∧
    from_number ⟨false, [3], 20⟩ = "300000000000000000000" ∧
    from_number ⟨false, [3], 21⟩ = "3e+21" := by
  refine ⟨?_, rfl, rfl, rfl, rfl, rfl, rfl, rfl, rfl⟩
  intro d hd
  constructor
  · intro hsci
    by_contra hw
    have hplain : ¬(d.exp < -6 ∨ 20 < d.exp) := hw
    have : 'e' ∈ (if d.neg then ['-'] else []) ++ plainDigits d.digits d.exp := by
      have heq : (from_number d).data =
          (if d.neg then ['-'] else []) ++ plainDigits d.digits d.exp := by
        unfold from_number
        rw [if_neg hplain]
      exact heq ▸ hsci
    rcases List.mem_append.mp this with h | h
    · rcases d.neg with _ | _ <;> simp at h
    · exact e_not_mem_plainDigits d.digits d.exp hd.2 h
  · intro hw
    have heq : (from_number d).data =
        (if d.neg then ['-'] else []) ++ sciDigits d.digits d.exp := by
      unfold from_number
      rw [if_pos hw]
    unfold sciOutput
    rw [heq]
    exact List.mem_append.mpr (Or.inr (e_mem_sciDigits d.digits d.exp))

/-- Witness for the amended C6 at a concrete input: 1e50 uses scientific
notation. -/
theorem from_number_window_witness :
    sciOutput ⟨false, [1], 50⟩ ↔ ((50 : ℤ) < -6 ∨ 20 < (50 : ℤ)) :=
  from_number_window_and_fixtures.1 ⟨false, [1], 50⟩ ⟨by decide, by decide⟩

/-- A run of zero digits contributes nothing to the value. -/
lemma ofDigits_replicate_zero (b z : ℕ) :
    Nat.ofDigits b (List.replicate z 0) = 0 := by
  induction z with
  | zero => rfl
  | succ k ih => rw [List.replicate_succ, Nat.ofDigits_cons, ih]; simp

/-- Any digit list is a run of zeros followed by its stripped form. -/
lemma dropZeros_eq (l : List ℕ) : ∃ z, l = List.replicate z 0 ++ dropZeros l := by
  induction l with
  | nil => exact ⟨0, rfl⟩
  | cons d t ih =>
    rcases d with _ | d
    · obtain ⟨z, hz⟩ := ih
      refine ⟨z + 1, ?_⟩
      rw [List.replicate_succ, List.cons_append,
        show dropZeros (0 :: t) = dropZeros t from rfl]
      exact congrArg (List.cons 0) hz
    · exact ⟨0, rfl⟩

/-- Rendering an exact decimal integer representation: with the
significand's trailing zeros folded into the exponent, the canonicalizer
reproduces the significant digits followed by the zero run, with no
decimal point and no exponent marker. -/
lemma from_number_int_digits (b : Bool) (sig : List ℕ) (z L : ℕ)
    (hL : L = z + sig.length) (hpos : 1 ≤ L) (h16 : L ≤ 16) :
    from_number ⟨b, sig.reverse, (L : ℤ) - 1⟩ =
      String.mk ((if b then ['-'] else []) ++
        (sig.reverse.map digitChar ++ List.replicate z '0')) := by
  unfold from_number
  rw [if_neg (show ¬(((L : ℤ) - 1) < -6 ∨ 20 < ((L : ℤ) - 1)) by omega)]
  unfold plainDigits
  rw [if_neg (show ¬((L : ℤ) - 1 < 0) by omega)]
  rw [if_pos (show ((sig.reverse.length : ℤ) - 1 ≤ (L : ℤ) - 1) by
    rw [List.length_reverse]; omega)]
  have hT : (((L : ℤ) - 1) - ((sig.reverse.length : ℤ) - 1)).toNat = z := by
    rw [List.length_reverse]; omega
  rw [hT]

/-- C7: for every integer within the exactly-representable range of a
64-bit float, the scalar Display rendering of Value::Int (which widens to
a float and goes through the shared numeric formatter) is exactly the
canonical decimal rendering: optional minus sign, digits with no leading
zeros, no decimal point, no fractional part. -/
theorem display_int_canonical (n : ℤ) (h : n.natAbs ≤ 2 ^ 53 - 1) :
    Value.display (Value.Int n) = canonicalDecimal n := by
  by_cases h0 : n = 0
  · subst h0
    rfl
  · have hm : n.natAbs ≠ 0 := fun hh => h0 (Int.natAbs_eq_zero.mp hh)
    set m := n.natAbs with hmdef
    set ds := Nat.digits 10 m with hdsdef
    have hne : ds ≠ [] := Nat.digits_ne_nil_iff_ne_zero.mpr hm
    obtain ⟨z, hz⟩ := dropZeros_eq ds
    set sig := dropZeros ds with hsigdef
    have hlen : ds.length = z + sig.length := by
      rw [hz, List.length_append, List.length_replicate]
    have hLpos : 1 ≤ ds.length := List.length_pos.mpr hne
    have hlen16 : ds.length ≤ 16 := by
      have hm16 : m < 10 ^ 16 := by
        have h' : m ≤ 2 ^ 53 - 1 := h
        norm_num at h' ⊢
        omega
      rw [hdsdef, Nat.digits_len 10 m (by norm_num) hm]
      have := Nat.log_lt_of_lt_pow hm hm16
      omega
    have hitd : intToDec n = ⟨decide (n < 0), sig.reverse, (ds.length : ℤ) - 1⟩ := by
      unfold intToDec
      rw [if_neg h0]
    calc Value.display (Value.Int n)
        = from_number ⟨decide (n < 0), sig.reverse, (ds.length : ℤ) - 1⟩ := by
          rw [show Value.display (Value.Int n) = from_number (intToDec n) from rfl, hitd]
      _ = String.mk ((if decide (n < 0) then ['-'] else []) ++
            (sig.reverse.map digitChar ++ List.replicate z '0')) :=
          from_number_int_digits (decide (n < 0)) sig z ds.length hlen hLpos hlen16
      _ = canonicalDecimal n := by
          unfold canonicalDecimal
          have hsign : (if decide (n < 0) then (['-'] : List Char) else []) =
              (if n < 0 then ['-'] else []) := by
            by_cases hn : n < 0 <;> simp [hn]
          rw [hsign, if_neg hm]
          refine congrArg (fun l => String.mk ((if n < 0 then ['-'] else []) ++ l)) ?_
          rw [show ds.reverse = sig.reverse ++ List.replicate z 0 from by
            rw [hz, List.reverse_append, List.reverse_replicate]]
          rw [List.map_append, List.map_replicate,
            show digitChar 0 = '0' from by decide]

/-- Witness for C7 at a concrete input: -1230 is inside the range and
renders as its decimal numeral. -/
theorem display_int_canonical_witness :
    (-1230 : ℤ).natAbs ≤ 2 ^ 53 - 1 ∧
      Value.display (Value.Int (-1230)) = canonicalDecimal (-1230) :=
  ⟨by norm_num, display_int_canonical (-1230) (by norm_num)⟩

/-- Counterexample to C8 as stated: applying the scalar Display rendering
to an Array or an Object is a silently-defined behavior that does produce
an output string — the source's catch-all arm writes the placeholder text
`unimplemented` (the error-returning arm is commented out in the code). -/
theorem display_array_object_cex :
    Value.display (Value.Array []) = "unimplemented" ∧
    Value.display (Value.Object []) = "unimplemented" :=
  ⟨rfl, rfl⟩

/-- C8 as amended: Array and Object have no canonical scalar rendering in
this core — for every Array and every Object, Display falls through to the
constant placeholder string, independent of the value's contents, rather
than failing or rendering structurally. -/
theorem display_compound_placeholder :
    ∀ (l : List Value) (o : List (Str × Value)),
      Value.display (Value.Array l) = "unimplemented" ∧
      Value.display (Value.Object o) = "unimplemented" :=
  fun _ _ => ⟨rfl, rfl⟩

end MistQL
